import Mathlib

/-!
# Verification of the js8-recorder ingestion core

Shallow embedding of the Python sources `js8_client.py`, `database.py` and
`js8_recorder.py` (the `_do_lookup` ranking stage), restricted to the ASCII
fragment the protocol uses.  Python strings are modelled as `List Char`,
Python `int` as `Int`, SQL/float averages as `ℚ`, fallible Python code as
`Except`/`Option`.  External library calls that only render values (the
wall clock, `datetime` formatting) are passed in as parameters.
-/

namespace JS8

/-- Coerce a Lean string literal to the `List Char` model of Python strings. -/
def lc (s : String) : List Char := s.data

/-- ASCII decimal digit test (`str.isdigit` / single-char `int()` domain). -/
def isDigitC (c : Char) : Bool := 48 ≤ c.toNat && c.toNat ≤ 57

/-- Numeric value of a digit character. -/
def digitVal (c : Char) : Nat := c.toNat - 48

/-- The digit character for `m < 10`. -/
def digitChar (m : Nat) : Char := Char.ofNat (48 + m)

/-- Python whitespace (ASCII fragment): space, `\t`, `\n`, `\r`, `\x0b`, `\x0c`. -/
def isWS (c : Char) : Bool :=
  c.toNat == 32 || c.toNat == 9 || c.toNat == 10 || c.toNat == 13 ||
  c.toNat == 11 || c.toNat == 12

/-- Python `str.strip()`: drop leading and trailing whitespace. -/
def stripWS (s : List Char) : List Char :=
  ((s.dropWhile isWS).reverse.dropWhile isWS).reverse

/-- Python `str.upper()` on one character (ASCII fragment). -/
def pyUpper (c : Char) : Char :=
  if 97 ≤ c.toNat ∧ c.toNat ≤ 122 then Char.ofNat (c.toNat - 32) else c

/-- Python `str.upper()` on a string. -/
def upperL (s : List Char) : List Char := s.map pyUpper

/-- Fuel-indexed worker for decimal rendering (structural so that concrete
instances reduce definitionally). -/
def natToDigitsAux : Nat → Nat → List Char
  | 0, _ => []
  | fuel + 1, n =>
    if n < 10 then [digitChar n]
    else natToDigitsAux fuel (n / 10) ++ [digitChar (n % 10)]

/-- Decimal digits of a natural number, most significant first (`str` of a Nat). -/
def natToDigits (n : Nat) : List Char := natToDigitsAux (n + 1) n

/-- Value of a digit string (leading zeros allowed). -/
def digitsVal (s : List Char) : Nat :=
  s.foldl (fun a c => a * 10 + digitVal c) 0

/-- Python `str` of an `int`: minus sign for negatives, then decimal digits. -/
def pyStrOfInt (n : Int) : List Char :=
  if n < 0 then '-' :: natToDigits n.natAbs else natToDigits n.natAbs

/-- After the first digit, Python's integer literals allow further digits with
single underscores between digits: `(["_"] digit)*`.  The flag records that
the previous character was an underscore (which must be followed by a digit
and cannot end the string). -/
def digitsTailSt (afterUS : Bool) : List Char → Bool
  | [] => !afterUS
  | c :: rest =>
    if c = '_' then !afterUS && digitsTailSt true rest
    else isDigitC c && digitsTailSt false rest

/-- The characters allowed after the first digit of a Python integer literal. -/
def digitsTail (r : List Char) : Bool := digitsTailSt false r

/-- Digit part of a Python integer literal: at least one digit, then
`digitsTail`; its value ignores the underscores. -/
def natPart (s : List Char) : Option Nat :=
  match s with
  | [] => none
  | c :: rest =>
    if isDigitC c && digitsTail rest then
      some (digitsVal ((c :: rest).filter (fun x => x ≠ '_')))
    else none

/-- Sign handling of Python `int(str)` after whitespace stripping. -/
def pyIntCore (s : List Char) : Option Int :=
  match s with
  | [] => none
  | c :: rest =>
    if c = '+' then (natPart rest).map (fun n => (n : Int))
    else if c = '-' then (natPart rest).map (fun n => -(n : Int))
    else (natPart (c :: rest)).map (fun n => (n : Int))

/-- Python `int(str)` (ASCII fragment): strip surrounding whitespace, optional
sign, digits with optional single underscores; `none` models `ValueError`. -/
def pyInt? (s : List Char) : Option Int := pyIntCore (stripWS s)

/-! ## JSON values

The fragment of JSON values the notification parameters carry: strings,
integers and `null` (JSON `null` decodes to Python `None`). -/

inductive JVal : Type
  | jstr : List Char → JVal
  | jnum : Int → JVal
  | jnull : JVal
  deriving DecidableEq

/-- Python `str()` of such a value. -/
def jvalStr : JVal → List Char
  | .jstr s => s
  | .jnum n => pyStrOfInt n
  | .jnull => lc "None"

/-- Python truthiness of such a value. -/
def pyTruthy : JVal → Bool
  | .jstr s => s ≠ []
  | .jnum n => n ≠ 0
  | .jnull => false

/-- Model of `dict.get(k, d)` over an association list of parameters. -/
def getParamD (ps : List (List Char × JVal)) (k : List Char) (d : JVal) : JVal :=
  match ps.find? (fun p => p.1 = k) with
  | some p => p.2
  | none => d

/-! ## `js8_client.py` -/

/-- Python-level errors the embedded fragment can raise (`TypeError` from
`utc / 1000` on a non-number, `AttributeError` from a string method on a
non-string). -/
inductive PyErr : Type
  | typeError
  | attributeError
  deriving DecidableEq

/-- Embedding of `_parse_snr(value)` from `js8_client.py`:
`"" if value is None or value == "" else` the Python decimal string of
`int(str(value).replace("+", ""))`, with `ValueError` giving `""`.
Note `replace` removes every `'+'`, not only a leading sign. -/
def _parse_snr : Option JVal → List Char
  | none => []
  | some .jnull => []
  | some v =>
    if v = .jstr [] then []
    else
      match pyInt? ((jvalStr v).filter (fun c => c ≠ '+')) with
      | some n => pyStrOfInt n
      | none => []

/-- Containment test `"SNR" in s` for an (already upper-cased) string. -/
def containsSNR : List Char → Bool
  | [] => false
  | 'S' :: 'N' :: 'R' :: _ => true
  | _ :: rest => containsSNR rest

/-- Worker for `s.split("SNR")`: accumulates the current piece (reversed). -/
def splitSNRAux (acc : List Char) : List Char → List (List Char)
  | [] => [acc.reverse]
  | 'S' :: 'N' :: 'R' :: rest => acc.reverse :: splitSNRAux [] rest
  | c :: rest => splitSNRAux (c :: acc) rest

/-- Python `s.split("SNR")`: pieces between non-overlapping occurrences. -/
def splitSNR (s : List Char) : List (List Char) := splitSNRAux [] s

/-- First whitespace-delimited token of a stripped string (`s.split()[0]`). -/
def firstTok (s : List Char) : List Char := s.takeWhile (fun c => !isWS c)

/-- One contact record, as the dict built in `_process_directed`.  The
`callsign` field is stored exactly as `params.get("FROM", "")` returned it. -/
structure Record : Type where
  callsign : JVal
  timestamp : List Char
  my_snr_of_them : List Char
  their_snr_of_me : List Char
  message : List Char
  grid : List Char
  deriving DecidableEq

/-- The two callback events `_process_directed` can emit. -/
inductive Event : Type
  | msgEv : Record → Event
  | gridEv : JVal → List Char → Event
  deriving DecidableEq

/-- Model of `params.get(k, "").upper()`: `AttributeError` if the value is not a string. -/
def getStrUpper (ps : List (List Char × JVal)) (k : List Char) :
    Except PyErr (List Char) :=
  match getParamD ps k (.jstr []) with
  | .jstr s => .ok (upperL s)
  | _ => .error .attributeError

/-- Model of `params.get(k, "").strip()`: `AttributeError` if the value is not a string. -/
def getStrStrip (ps : List (List Char × JVal)) (k : List Char) :
    Except PyErr (List Char) :=
  match getParamD ps k (.jstr []) with
  | .jstr s => .ok (stripWS s)
  | _ => .error .attributeError

/-- The `UTC` timestamp step of `_process_directed`: `params.get("UTC", "")`;
if truthy, `datetime.utcfromtimestamp(utc / 1000).strftime(...)` — `utc / 1000`
raises `TypeError` unless `utc` is a number; otherwise the current UTC time.
`fmtTime` stands for the `datetime` rendering, `now` for the wall clock. -/
def utcStep (ps : List (List Char × JVal)) (now : List Char)
    (fmtTime : ℚ → List Char) : Except PyErr (List Char) :=
  let utc := getParamD ps (lc "UTC") (.jstr [])
  if pyTruthy utc then
    match utc with
    | .jnum n => .ok (fmtTime ((n : ℚ) / 1000))
    | _ => .error .typeError
  else .ok now

/-- The free-text heuristic of `_process_directed`: scan `value.upper()` for
`"SNR"`, take the first whitespace-delimited token after it, parse it. -/
def theirSnrOfMe (value : List Char) : List Char :=
  let u := upperL value
  if containsSNR u then
    let parts := splitSNR u
    if parts.length > 1 then
      let p1 := stripWS (parts.getD 1 [])
      let snrPart := if p1 = [] then [] else firstTok p1
      _parse_snr (some (.jstr snrPart))
    else []
  else []

/-- Embedding of `JS8Client._process_directed` for a message with parameters `params` and
free-text `value`, with both callbacks installed: the list of emitted events,
or the Python exception that escapes.  `myCallsign` is `self.my_callsign`
(already upper-cased by `__init__`/`set_config`). -/
def _process_directed (myCallsign : List Char) (now : List Char)
    (fmtTime : ℚ → List Char) (params : List (List Char × JVal))
    (value : List Char) : Except PyErr (List Event) := do
  let toCall ← getStrUpper params (lc "TO")
  if myCallsign ≠ [] ∧ toCall ≠ myCallsign then
    return []
  else
    let callsign := getParamD params (lc "FROM") (.jstr [])
    let grid ← getStrStrip params (lc "GRID")
    let snr := _parse_snr (some (getParamD params (lc "SNR") (.jstr [])))
    let timestamp ← utcStep params now fmtTime
    let record : Record :=
      { callsign := callsign, timestamp := timestamp, my_snr_of_them := snr,
        their_snr_of_me := theirSnrOfMe value, message := value, grid := grid }
    return Event.msgEv record ::
      (if pyTruthy callsign ∧ grid ≠ [] then [Event.gridEv callsign grid] else [])

/-! ## The receive loop of `JS8Client._run`

`scanLines` models the inner `while "\n" in buffer` loop: it peels off every
complete newline-terminated line and returns the remaining buffer. -/

/-- Split a character stream into complete lines (the pieces before each
newline, the accumulator holds the pending piece reversed) and the leftover
after the last newline. -/
def scanLines (acc : List Char) : List Char → List (List Char) × List Char
  | [] => ([], acc.reverse)
  | c :: rest =>
    if c = '\n' then
      let r := scanLines [] rest
      (acc.reverse :: r.1, r.2)
    else scanLines (c :: acc) rest

/-- Per-line dispatch of the receive loop: a blank line (`not line.strip()`)
is skipped, otherwise the line goes to `_parse_message`-and-dispatch,
abstracted as `parse` (returning `none` for invalid JSON or falsy objects). -/
def dispatchLine {M : Type} (parse : List Char → Option M) (l : List Char) :
    Option M :=
  if stripWS l = [] then none else parse l

/-- The receive loop of `JS8Client._run`: each chunk returned by `recv` is
appended to the buffer and the complete lines are dispatched in order; an
empty chunk (`if not data: break`) ends the session, dropping the leftover. -/
def runChunks {M : Type} (parse : List Char → Option M) :
    List Char → List (List Char) → List M
  | _, [] => []
  | buf, c :: cs =>
    if c = [] then []
    else
      let r := scanLines [] (buf ++ c)
      r.1.filterMap (dispatchLine parse) ++ runChunks parse r.2 cs

/-! ## `database.py` -/

/-- Zero-padded signed rendering `f"{num:+03d}"`: explicit sign, absolute
value left-padded with zeros to at least two digits. -/
def fmtPlus3 (n : Int) : List Char :=
  (if n < 0 then '-' else '+') ::
    (let ds := natToDigits n.natAbs
     if ds.length < 2 then List.replicate (2 - ds.length) '0' ++ ds else ds)

/-- Embedding of `format_snr(value)` from `database.py`: empty for `None`/`""`, otherwise
`f"{int(str(value).replace('+', '')):+03d}"`, returning the input unchanged
(`str(value)`) when `int` raises `ValueError`. -/
def format_snr : Option JVal → List Char
  | none => []
  | some .jnull => []
  | some v =>
    if v = .jstr [] then []
    else
      match pyInt? ((jvalStr v).filter (fun c => c ≠ '+')) with
      | some n => fmtPlus3 n
      | none => jvalStr v

/-- The padded digit part of the `+03d` form. -/
def padDigits (n : Int) : List Char :=
  let ds := natToDigits n.natAbs
  if ds.length < 2 then List.replicate (2 - ds.length) '0' ++ ds else ds

/-- Python `int(c)` on one character: its digit value, else `ValueError`. -/
def charInt? (c : Char) : Option Nat :=
  if isDigitC c then some (digitVal c) else none

/-- Embedding of `grid_to_latlon(grid)` from `database.py`: `None` for fewer than four
characters, otherwise `(lat, lon)` computed from the character codes of the
upper-cased field characters and the two square digits; a non-digit square
character raises `ValueError`, giving `None`.  The field characters are not
validated. -/
def grid_to_latlon (g : List Char) : Option (ℚ × ℚ) :=
  match g with
  | c0 :: c1 :: c2 :: c3 :: _ =>
    match charInt? c2, charInt? c3 with
    | some d2, some d3 =>
      some ((((pyUpper c1).toNat : Int) - 65 : Int) * 10 - 90 + (d3 : Int) + (1 : ℚ) / 2,
            ((((pyUpper c0).toNat : Int) - 65 : Int) * 20 - 180 + (d2 : Int) * 2 + 1 : Int))
    | _, _ => none
  | _ => none

/-- One axis of the neighbour computation in `get_adjacent_grids`: step the
square digit by `d`, wrapping below `0` to `9` (decrementing the field code)
and above `9` to `0` (incrementing it).  Returns `(field', square')`. -/
def axisStep (f s d : Int) : Int × Int :=
  let ns := s + d
  if ns < 0 then (f - 1, 9) else if ns > 9 then (f + 1, 0) else (f, ns)

/-- The eight `(d_lon, d_lat)` offsets enumerated by the nested loops of
`get_adjacent_grids`, in loop order, the centre excluded. -/
def offsets : List (Int × Int) :=
  [(-1, -1), (-1, 0), (-1, 1), (0, -1), (0, 1), (1, -1), (1, 0), (1, 1)]

/-- One candidate neighbour of `get_adjacent_grids`: step both axes, keep the
locator only if both resulting field codes stay within `A`–`R` (65–82). -/
def adjCell (fLon fLat sLon sLat dLon dLat : Int) : Option (List Char) :=
  let lon := axisStep fLon sLon dLon
  let lat := axisStep fLat sLat dLat
  if 65 ≤ lon.1 ∧ lon.1 ≤ 82 ∧ 65 ≤ lat.1 ∧ lat.1 ≤ 82 then
    some [Char.ofNat lon.1.toNat, Char.ofNat lat.1.toNat,
          Char.ofNat (48 + lon.2).toNat, Char.ofNat (48 + lat.2).toNat]
  else none

/-- Embedding of `get_adjacent_grids(grid)` from `database.py`. -/
def get_adjacent_grids (g : List Char) : List (List Char) :=
  match g with
  | c0 :: c1 :: c2 :: c3 :: _ =>
    match charInt? c2, charInt? c3 with
    | some sLon, some sLat =>
      offsets.filterMap (fun d =>
        adjCell ((pyUpper c0).toNat : Int) ((pyUpper c1).toNat : Int)
          (sLon : Int) (sLat : Int) d.1 d.2)
    | _, _ => []
  | _ => []

/-- The `callsign_grids` table: callsign (primary key) to `(grid, updated_at)`. -/
def GridStore : Type := List Char → Option (List Char × List Char)

/-- Embedding of `Database.add_grid(callsign, grid)`: a non-empty grid is upserted
(`INSERT ... ON CONFLICT(callsign) DO UPDATE`), an empty grid only inserts a
fresh row (`INSERT OR IGNORE`).  `now` is `datetime.utcnow().isoformat()`. -/
def add_grid (st : GridStore) (callsign grid now : List Char) : GridStore :=
  if grid ≠ [] then
    fun c => if c = callsign then some (grid, now) else st c
  else
    match st callsign with
    | some _ => st
    | none => fun c => if c = callsign then some ([], now) else st c

/-- SQLite `CAST(text AS INTEGER)`: longest integer prefix after optional
whitespace and sign; a text with no leading digits casts to `0`. -/
def sqliteCastInt (s : List Char) : Int :=
  match s.dropWhile isWS with
  | '+' :: r => (digitsVal (r.takeWhile isDigitC) : Int)
  | '-' :: r => -(digitsVal (r.takeWhile isDigitC) : Int)
  | r => (digitsVal (r.takeWhile isDigitC) : Int)

/-- SQLite BINARY text order (`a ≤ b` bytewise). -/
def strLe : List Char → List Char → Bool
  | [], _ => true
  | _ :: _, [] => false
  | a :: as, b :: bs => if a = b then strLe as bs else decide (a.toNat < b.toNat)

/-- SQL `MAX` over the text values of a group (groups are nonempty). -/
def maxStr : List (List Char) → List Char
  | [] => []
  | x :: xs => xs.foldl (fun m y => if strLe m y then y else m) x

/-- SQL `MAX` over the integer values of a group (groups are nonempty). -/
def maxInt : List Int → Int
  | [] => 0
  | x :: xs => xs.foldl (fun m y => if m ≤ y then y else m) x

/-- A row of `directed_messages` (the columns `lookup_by_grid` touches). -/
structure DMsg : Type where
  callsign : List Char
  their_snr_of_me : List Char
  timestamp : List Char
  deriving DecidableEq

/-- A row of `callsign_grids` (the columns `lookup_by_grid` touches). -/
structure GridRow : Type where
  callsign : List Char
  grid : List Char
  deriving DecidableEq

/-- A result row of `Database.lookup_by_grid`.  `avg_their_snr` is `Option`
because the Python code treats it as nullable, though the inner join means
the query itself always produces a number. -/
structure LookupRow : Type where
  callsign : List Char
  grid : List Char
  avg_their_snr : Option ℚ
  max_their_snr : Int
  contact_count : Nat
  last_contact : List Char
  deriving DecidableEq

/-- The `ORDER BY avg_their_snr DESC` order of the SQL query: larger averages
first (SQL `NULL`s, if any, last). -/
def sqlAvgGe (a b : Option ℚ) : Bool :=
  match a, b with
  | _, none => true
  | none, some _ => false
  | some x, some y => decide (y ≤ x)

/-- The aggregated row the `lookup_by_grid` query produces for one matching
`callsign_grids` row: the `GROUP BY cg.callsign, cg.grid` aggregates over
that callsign's joined `directed_messages`. -/
def lookupRowFor (msgs : List DMsg) (cg : GridRow) : LookupRow :=
  let ms := msgs.filter (fun m => decide (m.callsign = cg.callsign))
  let vals := ms.map (fun m => sqliteCastInt m.their_snr_of_me)
  { callsign := cg.callsign, grid := cg.grid,
    avg_their_snr := some ((vals.map (fun v => (v : ℚ))).sum / (ms.length : ℚ)),
    max_their_snr := maxInt vals,
    contact_count := ms.length,
    last_contact := maxStr (ms.map (fun m => m.timestamp)) }

/-- Embedding of `Database.lookup_by_grid(grid)`: join `callsign_grids` rows whose `grid`
equals `grid.upper()` with their `directed_messages` (inner join: callsigns
with no messages drop out), one aggregated row per matching callsign,
ordered by average `their_snr_of_me` descending. -/
def lookup_by_grid (grids : List GridRow) (msgs : List DMsg) (q : List Char) :
    List LookupRow :=
  List.insertionSort (fun a b => sqlAvgGe a.avg_their_snr b.avg_their_snr = true)
    ((grids.filter (fun cg =>
        decide (cg.grid = upperL q) &&
          msgs.any (fun m => decide (m.callsign = cg.callsign)))).map
      (lookupRowFor msgs))

/-! ## The ranking stage of `JS8RecorderApp._do_lookup` -/

/-- The Python sort key `lambda x: x["avg_their_snr"] or -999`: both `None`
and an average of exactly `0` are falsy and become `-999`. -/
def sortKeyPy (a : Option ℚ) : ℚ :=
  match a with
  | some v => if v = 0 then -999 else v
  | none => -999

/-- Model of `adjacent_results.sort(key=..., reverse=True)`: the stable descending
sort by `sortKeyPy` (Python's sort is stable). -/
def sortAdjacentPy (l : List LookupRow) : List LookupRow :=
  List.insertionSort
    (fun a b => sortKeyPy b.avg_their_snr ≤ sortKeyPy a.avg_their_snr) l

/-- The result rows `JS8RecorderApp._do_lookup` inserts, in insertion order:
nothing for a blank or short query; otherwise the exact matches on the
upper-cased query first, then the concatenated adjacent-grid matches sorted
by `sortKeyPy` descending. -/
def do_lookup_rows (grids : List GridRow) (msgs : List DMsg) (q : List Char) :
    List LookupRow :=
  let g := upperL (stripWS q)
  if g = [] then []
  else if g.length < 4 then []
  else
    let exact := lookup_by_grid grids msgs g
    let adjacent := (get_adjacent_grids g).flatMap (fun ag => lookup_by_grid grids msgs ag)
    exact ++ sortAdjacentPy adjacent

/-! ## Reference forms taken from the specification's words -/

/-- The integer value of a well-formed signed digit string (`^[+-]?\d+$`). -/
def sValue (s : List Char) : Int :=
  match s with
  | [] => 0
  | c :: r =>
    if c = '+' then (digitsVal r : Int)
    else if c = '-' then -(digitsVal r : Int)
    else (digitsVal (c :: r) : Int)

/-- Well-formedness `^[+-]?\d+$` of a display value. -/
def wfSigned (s : List Char) : Bool :=
  match s with
  | [] => false
  | c :: r =>
    if c = '+' ∨ c = '-' then !r.isEmpty && r.all isDigitC
    else isDigitC c && r.all isDigitC

/-- The spec's normalized display form of a well-formed report (§4.2 of the
spec, stated in its words): explicit sign, value zero-padded to at least two
digits. -/
def specNormalizedForm (s : List Char) : List Char :=
  (if sValue s < 0 then '-' else '+') ::
    (let ds := natToDigits (sValue s).natAbs
     if ds.length < 2 then List.replicate (2 - ds.length) '0' ++ ds else ds)

/-- A valid 4-character Maidenhead locator: exactly four characters, the
first two case-insensitively `A`–`R`, the last two digits. -/
def validGrid4 (g : List Char) : Bool :=
  match g with
  | [c0, c1, c2, c3] =>
    (65 ≤ (pyUpper c0).toNat && (pyUpper c0).toNat ≤ 82) &&
    (65 ≤ (pyUpper c1).toNat && (pyUpper c1).toNat ≤ 82) &&
    isDigitC c2 && isDigitC c3
  | _ => false

/-! ## Lemmas about digit strings and `int`/`str` round trips -/

/-- Round trip `(Char.ofNat n).toNat = n` for code points below the surrogate range. -/
theorem toNat_ofNat_lt (n : Nat) (h : n < 55296) : (Char.ofNat n).toNat = n := by
  have hv : n.isValidChar := Or.inl h
  simp [Char.ofNat, hv, Char.ofNatAux, Char.toNat, UInt32.toNat, BitVec.toNat_ofNatLt]

theorem natToDigitsAux_irrel (fuel₁ : Nat) : ∀ fuel₂ n, n < fuel₁ → n < fuel₂ →
    natToDigitsAux fuel₁ n = natToDigitsAux fuel₂ n := by
  induction fuel₁ with
  | zero => intro fuel₂ n h; omega
  | succ f₁ ih =>
    intro fuel₂ n h₁ h₂
    match fuel₂, h₂ with
    | f₂ + 1, _ =>
      simp only [natToDigitsAux]
      by_cases h10 : n < 10
      · simp [h10]
      · have hdiv : n / 10 < n := Nat.div_lt_self (by omega) (by omega)
        simp only [h10, if_false]
        rw [ih f₂ (n / 10) (by omega) (by omega)]

theorem natToDigits_lt (n : Nat) (h : n < 10) : natToDigits n = [digitChar n] := by
  simp [natToDigits, natToDigitsAux, h]

theorem natToDigits_ge (n : Nat) (h : 10 ≤ n) :
    natToDigits n = natToDigits (n / 10) ++ [digitChar (n % 10)] := by
  have hdiv : n / 10 < n := Nat.div_lt_self (by omega) (by omega)
  show natToDigitsAux (n + 1) n = natToDigitsAux (n / 10 + 1) (n / 10) ++ [digitChar (n % 10)]
  rw [show natToDigitsAux (n + 1) n =
      if n < 10 then [digitChar n]
      else natToDigitsAux n (n / 10) ++ [digitChar (n % 10)] from rfl]
  have h' : ¬ n < 10 := by omega
  rw [if_neg h', natToDigitsAux_irrel n (n / 10 + 1) (n / 10) (by omega) (by omega)]



theorem toNat_digitChar (m : Nat) (h : m < 10) : (digitChar m).toNat = 48 + m := by
  have : 48 + m < 55296 := by omega
  simpa [digitChar] using toNat_ofNat_lt (48 + m) this

theorem isDigitC_digitChar (m : Nat) (h : m < 10) : isDigitC (digitChar m) = true := by
  simp [isDigitC, toNat_digitChar m h]
  omega

theorem digitVal_digitChar (m : Nat) (h : m < 10) : digitVal (digitChar m) = m := by
  simp [digitVal, toNat_digitChar m h]

theorem toNat_eq_of_eq {c d : Char} (h : c = d) : c.toNat = d.toNat := by rw [h]

theorem isDigitC_facts {c : Char} (h : isDigitC c = true) :
    isWS c = false ∧ c ≠ '+' ∧ c ≠ '-' ∧ c ≠ '_' := by
  have hn : 48 ≤ c.toNat ∧ c.toNat ≤ 57 := by
    simpa [isDigitC, Bool.and_eq_true, decide_eq_true_eq] using h
  refine ⟨?_, ?_, ?_, ?_⟩
  · simp [isWS]
    omega
  · intro he; subst he; exact absurd hn (by decide)
  · intro he; subst he; exact absurd hn (by decide)
  · intro he; subst he; exact absurd hn (by decide)

theorem dropWhile_eq_self {p : Char → Bool} {l : List Char}
    (h : ∀ c ∈ l, p c = false) : l.dropWhile p = l := by
  cases l with
  | nil => rfl
  | cons c rest => simp [List.dropWhile, h c (by simp)]

theorem stripWS_eq_self {s : List Char} (h : ∀ c ∈ s, isWS c = false) :
    stripWS s = s := by
  unfold stripWS
  rw [dropWhile_eq_self h, dropWhile_eq_self (by simpa using h), List.reverse_reverse]

theorem digitsVal_cons_zero (ds : List Char) : digitsVal ('0' :: ds) = digitsVal ds := rfl

theorem digitsVal_append_digit (ds : List Char) (c : Char) :
    digitsVal (ds ++ [c]) = digitsVal ds * 10 + digitVal c := by
  simp [digitsVal, List.foldl_append]

theorem natToDigits_ne_nil (n : Nat) : natToDigits n ≠ [] := by
  by_cases h : n < 10
  · simp [natToDigits_lt n h]
  · rw [natToDigits_ge n (by omega)]
    simp

theorem natToDigits_all (n : Nat) : ∀ c ∈ natToDigits n, isDigitC c = true := by
  induction n using Nat.strong_induction_on with
  | _ n ih =>
    by_cases h : n < 10
    · rw [natToDigits_lt n h]
      intro c hc
      simp at hc
      subst hc
      exact isDigitC_digitChar n h
    · rw [natToDigits_ge n (by omega)]
      intro c hc
      rcases List.mem_append.mp hc with hc | hc
      · exact ih (n / 10) (Nat.div_lt_self (by omega) (by omega)) c hc
      · simp at hc
        subst hc
        exact isDigitC_digitChar (n % 10) (Nat.mod_lt _ (by omega))

theorem digitsVal_natToDigits (n : Nat) : digitsVal (natToDigits n) = n := by
  induction n using Nat.strong_induction_on with
  | _ n ih =>
    by_cases h : n < 10
    · rw [natToDigits_lt n h]
      simp [digitsVal, digitVal_digitChar n h]
    · rw [natToDigits_ge n (by omega), digitsVal_append_digit,
        ih (n / 10) (Nat.div_lt_self (by omega) (by omega)),
        digitVal_digitChar (n % 10) (Nat.mod_lt _ (by omega))]
      omega

theorem digitsTail_of_all {r : List Char} (h : ∀ c ∈ r, isDigitC c = true) :
    digitsTail r = true := by
  induction r with
  | nil => rfl
  | cons c rest ih =>
    have hc := h c (by simp)
    have hne := (isDigitC_facts hc).2.2.2
    simp only [digitsTail, digitsTailSt, if_neg hne, Bool.and_eq_true]
    exact ⟨hc, ih (fun x hx => h x (by simp [hx]))⟩

theorem natPart_digits {s : List Char} (hne : s ≠ [])
    (h : ∀ c ∈ s, isDigitC c = true) : natPart s = some (digitsVal s) := by
  match s, hne with
  | c :: rest, _ =>
    have hc := h c (by simp)
    have htail : digitsTail rest = true :=
      digitsTail_of_all (fun x hx => h x (by simp [hx]))
    have hfilter : (c :: rest).filter (fun x => !decide (x = '_')) = c :: rest := by
      apply List.filter_eq_self.mpr
      intro x hx
      simpa using (isDigitC_facts (h x hx)).2.2.2
    simp [natPart, hc, htail, hfilter]

theorem pyInt?_digits {s : List Char} (hne : s ≠ [])
    (h : ∀ c ∈ s, isDigitC c = true) : pyInt? s = some ((digitsVal s : Nat) : Int) := by
  unfold pyInt?
  rw [stripWS_eq_self (fun c hc => (isDigitC_facts (h c hc)).1)]
  match s, hne with
  | c :: rest, _ =>
    have hfc := isDigitC_facts (h c (by simp))
    simp only [pyIntCore, if_neg hfc.2.1, if_neg hfc.2.2.1]
    rw [natPart_digits (by simp) h]
    rfl

theorem pyInt?_neg {r : List Char} (hne : r ≠ [])
    (h : ∀ c ∈ r, isDigitC c = true) :
    pyInt? ('-' :: r) = some (-(digitsVal r : Int)) := by
  unfold pyInt?
  have hws : ∀ c ∈ '-' :: r, isWS c = false := by
    intro c hc
    rcases List.mem_cons.mp hc with hc | hc
    · subst hc; rfl
    · exact (isDigitC_facts (h c hc)).1
  rw [stripWS_eq_self hws]
  have : ('-' : Char) ≠ '+' := by decide
  simp only [pyIntCore, if_neg this, if_pos rfl]
  rw [natPart_digits hne h]
  rfl

theorem pyInt?_pos {r : List Char} (hne : r ≠ [])
    (h : ∀ c ∈ r, isDigitC c = true) :
    pyInt? ('+' :: r) = some ((digitsVal r : Nat) : Int) := by
  unfold pyInt?
  have hws : ∀ c ∈ '+' :: r, isWS c = false := by
    intro c hc
    rcases List.mem_cons.mp hc with hc | hc
    · subst hc; rfl
    · exact (isDigitC_facts (h c hc)).1
  rw [stripWS_eq_self hws]
  simp only [pyIntCore, if_pos rfl]
  rw [natPart_digits hne h]
  rfl

theorem pyInt?_pyStrOfInt (n : Int) : pyInt? (pyStrOfInt n) = some n := by
  by_cases h : n < 0
  · rw [show pyStrOfInt n = '-' :: natToDigits n.natAbs from by simp [pyStrOfInt, h]]
    rw [pyInt?_neg (natToDigits_ne_nil _) (natToDigits_all _), digitsVal_natToDigits]
    congr 1
    omega
  · rw [show pyStrOfInt n = natToDigits n.natAbs from by simp [pyStrOfInt, h]]
    rw [pyInt?_digits (natToDigits_ne_nil _) (natToDigits_all _), digitsVal_natToDigits]
    congr 1
    omega

theorem noPlus_pyStrOfInt (n : Int) :
    (pyStrOfInt n).filter (fun c => c ≠ '+') = pyStrOfInt n := by
  apply List.filter_eq_self.mpr
  intro x hx
  by_cases h : n < 0
  · rw [show pyStrOfInt n = '-' :: natToDigits n.natAbs from by simp [pyStrOfInt, h]] at hx
    rcases List.mem_cons.mp hx with hx | hx
    · subst hx; decide
    · simpa using (isDigitC_facts (natToDigits_all _ x hx)).2.1
  · rw [show pyStrOfInt n = natToDigits n.natAbs from by simp [pyStrOfInt, h]] at hx
    simpa using (isDigitC_facts (natToDigits_all _ x hx)).2.1

theorem pyStrOfInt_ne_nil (n : Int) : pyStrOfInt n ≠ [] := by
  unfold pyStrOfInt
  by_cases h : n < 0 <;> simp [h, natToDigits_ne_nil]

theorem filter_noPlus_of_digits {r : List Char} (h : ∀ c ∈ r, isDigitC c = true) :
    r.filter (fun c => c ≠ '+') = r := by
  apply List.filter_eq_self.mpr
  intro x hx
  simpa using (isDigitC_facts (h x hx)).2.1

theorem filter_noPlus_of_digits' {r : List Char} (h : ∀ c ∈ r, isDigitC c = true) :
    r.filter (fun c => !decide (c = '+')) = r := by
  apply List.filter_eq_self.mpr
  intro x hx
  simpa using (isDigitC_facts (h x hx)).2.1

/-- Unfolding of `_parse_snr` on a non-empty string argument. -/
theorem parse_snr_jstr {s : List Char} (hs : s ≠ []) :
    _parse_snr (some (.jstr s)) =
      (match pyInt? (s.filter (fun c => c ≠ '+')) with
       | some n => pyStrOfInt n
       | none => []) := by
  have hne : (JVal.jstr s) ≠ .jstr [] := by simpa using hs
  simp only [_parse_snr, if_neg hne, jvalStr]

/-- Evaluation of `_parse_snr` on a well-formed signed display value is Python's decimal
string of its integer value. -/
theorem parse_wf {s : List Char} (h : wfSigned s = true) :
    _parse_snr (some (.jstr s)) = pyStrOfInt (sValue s) := by
  match s with
  | [] => exact absurd h (by simp [wfSigned])
  | c :: r =>
    have hne : JVal.jstr (c :: r) ≠ JVal.jstr [] := by simp
    by_cases hp : c = '+'
    · subst hp
      have hr : ¬r.isEmpty = true ∧ r.all isDigitC = true := by
        simpa [wfSigned] using h
      have hall : ∀ x ∈ r, isDigitC x = true := by
        intro x hx; exact (List.all_eq_true.mp hr.2 x hx)
      have hrne : r ≠ [] := by simpa [List.isEmpty_iff] using hr.1
      have hfil : ('+' :: r).filter (fun c => c ≠ '+') = r := by
        rw [List.filter_cons]
        have h1 : decide (('+' : Char) ≠ '+') = false := by decide
        rw [h1]
        simp only [Bool.false_eq_true, if_false]
        exact filter_noPlus_of_digits hall
      simp [_parse_snr, hne, jvalStr, hfil, sValue]
      rw [filter_noPlus_of_digits' hall, pyInt?_digits hrne hall]
    · by_cases hm : c = '-'
      · subst hm
        have hr : ¬r.isEmpty = true ∧ r.all isDigitC = true := by
          simpa [wfSigned] using h
        have hall : ∀ x ∈ r, isDigitC x = true := by
          intro x hx; exact (List.all_eq_true.mp hr.2 x hx)
        have hrne : r ≠ [] := by simpa [List.isEmpty_iff] using hr.1
        have hfil : ('-' :: r).filter (fun c => c ≠ '+') = '-' :: r := by
          rw [List.filter_cons]
          have h1 : decide (('-' : Char) ≠ '+') = true := by decide
          rw [h1]
          simp only [if_true]
          rw [filter_noPlus_of_digits hall]
        have hm' : ('-' : Char) ≠ '+' := by decide
        simp [_parse_snr, hne, jvalStr, hfil, sValue, hm']
        rw [filter_noPlus_of_digits' hall, pyInt?_neg hrne hall]
      · have hr : isDigitC c = true ∧ r.all isDigitC = true := by
          simpa [wfSigned, hp, hm] using h
        have hall : ∀ x ∈ c :: r, isDigitC x = true := by
          intro x hx
          rcases List.mem_cons.mp hx with hx | hx
          · subst hx; exact hr.1
          · exact List.all_eq_true.mp hr.2 x hx
        have hfil : (c :: r).filter (fun c => c ≠ '+') = c :: r :=
          filter_noPlus_of_digits hall
        simp only [_parse_snr, if_neg hne, jvalStr, hfil,
          pyInt?_digits (by simp) hall, sValue, if_neg hp, if_neg hm]

/-- Evaluation of `format_snr` applied to Python's decimal string of an integer renders it
in the `+03d` display form. -/
theorem format_snr_pyStrOfInt (n : Int) :
    format_snr (some (.jstr (pyStrOfInt n))) = fmtPlus3 n := by
  have hne : JVal.jstr (pyStrOfInt n) ≠ JVal.jstr [] := by
    simpa using pyStrOfInt_ne_nil n
  simp only [format_snr, if_neg hne, jvalStr, noPlus_pyStrOfInt,
    pyInt?_pyStrOfInt]

theorem fmtPlus3_eq (n : Int) :
    fmtPlus3 n = (if n < 0 then '-' else '+') :: padDigits n := rfl

theorem padDigits_ne_nil (n : Int) : padDigits n ≠ [] := by
  unfold padDigits
  by_cases h : (natToDigits n.natAbs).length < 2 <;>
    simp [h, natToDigits_ne_nil]

theorem padDigits_all (n : Int) : ∀ c ∈ padDigits n, isDigitC c = true := by
  unfold padDigits
  intro c hc
  by_cases h : (natToDigits n.natAbs).length < 2
  · simp only [h, if_true] at hc
    rcases List.mem_append.mp hc with hc | hc
    · rw [List.eq_of_mem_replicate hc]
      decide
    · exact natToDigits_all _ c hc
  · simp only [h, if_false] at hc
    exact natToDigits_all _ c hc

theorem digitsVal_replicate_zero (k : Nat) (ds : List Char) :
    digitsVal (List.replicate k '0' ++ ds) = digitsVal ds := by
  induction k with
  | zero => rfl
  | succ k ih => simpa [List.replicate_succ] using ih

theorem digitsVal_padDigits (n : Int) : digitsVal (padDigits n) = n.natAbs := by
  unfold padDigits
  by_cases h : (natToDigits n.natAbs).length < 2
  · simp [h, digitsVal_replicate_zero, digitsVal_natToDigits]
  · simp [h, digitsVal_natToDigits]

theorem wfSigned_fmtPlus3 (n : Int) : wfSigned (fmtPlus3 n) = true := by
  rw [fmtPlus3_eq]
  by_cases h : n < 0
  all_goals
    simp [h, wfSigned, List.isEmpty_iff, padDigits_ne_nil,
      List.all_eq_true]
  all_goals exact padDigits_all n

theorem sValue_fmtPlus3 (n : Int) : sValue (fmtPlus3 n) = n := by
  rw [fmtPlus3_eq]
  by_cases h : n < 0
  · have hm : ('-' : Char) ≠ '+' := by decide
    simp only [h, if_true, sValue, if_neg hm, if_pos rfl, digitsVal_padDigits]
    rw [Int.ofNat_natAbs_of_nonpos (by omega)]
    omega
  · simp only [h, if_false, sValue, if_pos rfl, digitsVal_padDigits]
    exact Int.natAbs_of_nonneg (by omega)

/-! ## Lemmas about the adjacency computation -/

theorem axisStep_snd_range {f s d : Int} (hs : 0 ≤ s ∧ s ≤ 9) :
    0 ≤ (axisStep f s d).2 ∧ (axisStep f s d).2 ≤ 9 := by
  unfold axisStep
  dsimp only
  split_ifs <;> simp <;> omega

theorem axisStep_inj {f s d d' : Int} (hs : 0 ≤ s ∧ s ≤ 9)
    (hd : -1 ≤ d ∧ d ≤ 1) (hd' : -1 ≤ d' ∧ d' ≤ 1)
    (h : axisStep f s d = axisStep f s d') : d = d' := by
  unfold axisStep at h
  dsimp only at h
  split_ifs at h <;> rw [Prod.mk.injEq] at h <;> omega

theorem axisStep_ne_center {f s d : Int} (hs : 0 ≤ s ∧ s ≤ 9)
    (hd : -1 ≤ d ∧ d ≤ 1) (hdne : d ≠ 0) : axisStep f s d ≠ (f, s) := by
  unfold axisStep
  dsimp only
  split_ifs <;> intro h <;> rw [Prod.mk.injEq] at h <;> omega

theorem chr_inj_small {m n : Nat} (hm : m < 55296) (hn : n < 55296)
    (h : Char.ofNat m = Char.ofNat n) : m = n := by
  rw [← toNat_ofNat_lt m hm, ← toNat_ofNat_lt n hn, h]

theorem adjCell_some {fLon fLat sLon sLat dLon dLat : Int} {v : List Char}
    (h : adjCell fLon fLat sLon sLat dLon dLat = some v) :
    (65 ≤ (axisStep fLon sLon dLon).1 ∧ (axisStep fLon sLon dLon).1 ≤ 82 ∧
     65 ≤ (axisStep fLat sLat dLat).1 ∧ (axisStep fLat sLat dLat).1 ≤ 82) ∧
    v = [Char.ofNat (axisStep fLon sLon dLon).1.toNat,
         Char.ofNat (axisStep fLat sLat dLat).1.toNat,
         Char.ofNat (48 + (axisStep fLon sLon dLon).2).toNat,
         Char.ofNat (48 + (axisStep fLat sLat dLat).2).toNat] := by
  unfold adjCell at h
  dsimp only at h
  split_ifs at h with hcond
  refine ⟨⟨hcond.1, hcond.2.1, hcond.2.2.1, hcond.2.2.2⟩, ?_⟩
  injection h with h
  exact h.symm

theorem offsets_bounds : ∀ d ∈ offsets,
    (-1 ≤ d.1 ∧ d.1 ≤ 1) ∧ (-1 ≤ d.2 ∧ d.2 ≤ 1) ∧ ¬(d.1 = 0 ∧ d.2 = 0) := by
  decide

/-- Recover the numeric components from a rendered neighbour locator. -/
theorem render_inj {A1 A2 S1 S2 B1 B2 T1 T2 : Int}
    (hA1 : 65 ≤ A1 ∧ A1 ≤ 82) (hA2 : 65 ≤ A2 ∧ A2 ≤ 82)
    (hB1 : 65 ≤ B1 ∧ B1 ≤ 82) (hB2 : 65 ≤ B2 ∧ B2 ≤ 82)
    (hS1 : 0 ≤ S1 ∧ S1 ≤ 9) (hS2 : 0 ≤ S2 ∧ S2 ≤ 9)
    (hT1 : 0 ≤ T1 ∧ T1 ≤ 9) (hT2 : 0 ≤ T2 ∧ T2 ≤ 9)
    (h : [Char.ofNat A1.toNat, Char.ofNat A2.toNat,
          Char.ofNat (48 + S1).toNat, Char.ofNat (48 + S2).toNat] =
         [Char.ofNat B1.toNat, Char.ofNat B2.toNat,
          Char.ofNat (48 + T1).toNat, Char.ofNat (48 + T2).toNat]) :
    A1 = B1 ∧ A2 = B2 ∧ S1 = T1 ∧ S2 = T2 := by
  injection h with e1 h
  injection h with e2 h
  injection h with e3 h
  injection h with e4 _
  have k1 := chr_inj_small (by omega) (by omega) e1
  have k2 := chr_inj_small (by omega) (by omega) e2
  have k3 := chr_inj_small (by omega) (by omega) e3
  have k4 := chr_inj_small (by omega) (by omega) e4
  omega

/-- The `filterMap` of a function injective on the members of a duplicate-free
list is duplicate-free. -/
theorem nodup_filterMap_on {α β : Type} {f : α → Option β} :
    ∀ {l : List α}, l.Nodup →
    (∀ a ∈ l, ∀ a' ∈ l, ∀ b, f a = some b → f a' = some b → a = a') →
    (l.filterMap f).Nodup := by
  intro l
  induction l with
  | nil => intro _ _; simp
  | cons x xs ih =>
    intro hnd hinj
    rw [List.filterMap_cons]
    rcases hfx : f x with _ | b
    · exact ih hnd.of_cons
        (fun a ha a' ha' b h1 h2 => hinj a (by simp [ha]) a' (by simp [ha']) b h1 h2)
    · rw [List.nodup_cons]
      refine ⟨?_, ih hnd.of_cons
        (fun a ha a' ha' b h1 h2 => hinj a (by simp [ha]) a' (by simp [ha']) b h1 h2)⟩
      intro hbmem
      rcases List.mem_filterMap.mp hbmem with ⟨a, ha, hfa⟩
      have hxa : x = a :=
        hinj x (by simp) a (by simp [ha]) b hfx hfa
      rw [List.nodup_cons] at hnd
      exact hnd.1 (hxa ▸ ha)

/-! ## Lemmas about the buffered receive loop -/

theorem scanLines_nil (acc : List Char) : scanLines acc [] = ([], acc.reverse) := rfl

theorem scanLines_cons_nl (acc rest : List Char) :
    scanLines acc ('\n' :: rest) =
      (acc.reverse :: (scanLines [] rest).1, (scanLines [] rest).2) := by
  simp [scanLines]

theorem scanLines_cons (acc : List Char) {c : Char} (h : c ≠ '\n')
    (rest : List Char) : scanLines acc (c :: rest) = scanLines (c :: acc) rest := by
  simp [scanLines, h]

theorem scanLines_prepend (a : List Char) : ∀ (acc s : List Char),
    (∀ c ∈ a, c ≠ '\n') →
    scanLines acc (a ++ s) = scanLines (a.reverse ++ acc) s := by
  induction a with
  | nil => intro acc s _; rfl
  | cons x a' ih =>
    intro acc s h
    have hx : x ≠ '\n' := h x (by simp)
    rw [List.cons_append, scanLines_cons acc hx,
      ih (x :: acc) s (fun c hc => h c (by simp [hc]))]
    simp

theorem scanLines_leftover_no_newline : ∀ (s acc : List Char),
    (∀ c ∈ acc, c ≠ '\n') → ∀ c ∈ (scanLines acc s).2, c ≠ '\n' := by
  intro s
  induction s with
  | nil =>
    intro acc h c hc
    simp only [scanLines] at hc
    exact h c (by simpa using hc)
  | cons x s' ih =>
    intro acc h c hc
    by_cases hx : x = '\n'
    · subst hx
      rw [scanLines_cons_nl] at hc
      exact ih [] (by simp) c hc
    · rw [scanLines_cons acc hx] at hc
      exact ih (x :: acc) (by
        intro d hd
        rcases List.mem_cons.mp hd with hd | hd
        · subst hd; exact hx
        · exact h d hd) c hc

theorem scanLines_append : ∀ (s acc extra : List Char),
    (∀ x ∈ acc, x ≠ '\n') →
    scanLines acc (s ++ extra) =
      ((scanLines acc s).1 ++ (scanLines [] ((scanLines acc s).2 ++ extra)).1,
       (scanLines [] ((scanLines acc s).2 ++ extra)).2) := by
  intro s
  induction s with
  | nil =>
    intro acc extra h
    rw [List.nil_append, scanLines_nil,
      scanLines_prepend acc.reverse [] extra (fun c hc => h c (by simpa using hc))]
    simp
  | cons x s' ih =>
    intro acc extra h
    by_cases hx : x = '\n'
    · subst hx
      rw [List.cons_append, scanLines_cons_nl, scanLines_cons_nl,
        ih [] extra (by simp)]
      simp
    · rw [List.cons_append, scanLines_cons acc hx, scanLines_cons acc hx,
        ih (x :: acc) extra (by
          intro d hd
          rcases List.mem_cons.mp hd with hd | hd
          · subst hd; exact hx
          · exact h d hd)]

theorem runChunks_flatten {M : Type} (parse : List Char → Option M) :
    ∀ (chunks : List (List Char)) (buf : List Char),
    (∀ x ∈ buf, x ≠ '\n') → (∀ c ∈ chunks, c ≠ []) →
    runChunks parse buf chunks =
      (scanLines [] (buf ++ chunks.flatten)).1.filterMap (dispatchLine parse) := by
  intro chunks
  induction chunks with
  | nil =>
    intro buf hbuf _
    simp only [runChunks, List.flatten_nil, List.append_nil]
    rw [show scanLines ([] : List Char) buf = scanLines ([] : List Char) (buf ++ []) from by simp,
      scanLines_prepend buf [] [] hbuf]
    simp [scanLines]
  | cons c cs ih =>
    intro buf hbuf hne
    have hc : c ≠ [] := hne c (by simp)
    simp only [runChunks, if_neg hc, List.flatten_cons]
    rw [ih (scanLines [] (buf ++ c)).2
        (scanLines_leftover_no_newline (buf ++ c) [] (by simp))
        (fun x hx => hne x (by simp [hx])),
      show buf ++ (c ++ cs.flatten) = (buf ++ c) ++ cs.flatten from by simp,
      scanLines_append (buf ++ c) [] cs.flatten (by simp),
      List.filterMap_append]

/-! ## Claim theorems -/

/-- C1: with operator `W1ABC` configured, the scenario notification
(`TO=W1ABC`, `FROM=K9XYZ`, `GRID=EN61`, `SNR=-05`,
value `K9XYZ W1ABC SNR +01`) emits exactly one contact-record event with
callsign `K9XYZ`, `my_snr_of_them` the decimal string of `-5`,
`their_snr_of_me` the decimal string of `1` (first whitespace-delimited
token after `SNR` in the value), message equal to the value and grid `EN61`,
plus exactly one grid-update event `(K9XYZ, EN61)`; the same notification
with `TO=W2DEF` emits no events at all. -/
theorem claim_C1_directed_scenario :
    ∀ (now : List Char) (fmtTime : ℚ → List Char),
    _process_directed (lc "W1ABC") now fmtTime
      [(lc "TO", .jstr (lc "W1ABC")), (lc "FROM", .jstr (lc "K9XYZ")),
       (lc "GRID", .jstr (lc "EN61")), (lc "SNR", .jstr (lc "-05"))]
      (lc "K9XYZ W1ABC SNR +01") =
      .ok [Event.msgEv ⟨.jstr (lc "K9XYZ"), now, lc "-5", lc "1",
             lc "K9XYZ W1ABC SNR +01", lc "EN61"⟩,
           Event.gridEv (.jstr (lc "K9XYZ")) (lc "EN61")] ∧
    _process_directed (lc "W1ABC") now fmtTime
      [(lc "TO", .jstr (lc "W2DEF")), (lc "FROM", .jstr (lc "K9XYZ")),
       (lc "GRID", .jstr (lc "EN61")), (lc "SNR", .jstr (lc "-05"))]
      (lc "K9XYZ W1ABC SNR +01") = .ok [] :=
  fun _ _ => ⟨rfl, rfl⟩

/-- C2: `add_grid` with a non-empty grid always stores exactly that grid
(inserting the row if absent, refreshing `updated_at`); with an empty grid it
leaves an existing row (with non-empty grid) entirely unchanged, and creates
a row with an empty grid when none exists. -/
theorem claim_C2_add_grid_invariant :
    ∀ (st : GridStore) (callsign g now : List Char),
    (g ≠ [] → add_grid st callsign g now callsign = some (g, now)) ∧
    (∀ g0 t0, st callsign = some (g0, t0) → g0 ≠ [] →
      add_grid st callsign [] now = st) ∧
    (st callsign = none → add_grid st callsign [] now callsign = some ([], now)) := by
  intro st callsign g now
  refine ⟨?_, ?_, ?_⟩
  · intro hg
    simp [add_grid, hg]
  · intro g0 t0 hst _
    simp [add_grid, hst]
  · intro hst
    simp [add_grid, hst]

/-- Witness for **C2** at a concrete store. -/
theorem claim_C2_witness :
    add_grid (fun c => if c = lc "AA1A" then some (lc "EM48", lc "T0") else none)
      (lc "AA1A") (lc "EM57") (lc "T1") (lc "AA1A") = some (lc "EM57", lc "T1") ∧
    add_grid (fun c => if c = lc "AA1A" then some (lc "EM48", lc "T0") else none)
      (lc "AA1A") [] (lc "T1") =
      (fun c => if c = lc "AA1A" then some (lc "EM48", lc "T0") else none) ∧
    add_grid (fun _ => none) (lc "BB2B") [] (lc "T1") (lc "BB2B") = some ([], lc "T1") :=
  ⟨(claim_C2_add_grid_invariant
      (fun c => if c = lc "AA1A" then some (lc "EM48", lc "T0") else none)
      (lc "AA1A") (lc "EM57") (lc "T1")).1 (by decide),
   (claim_C2_add_grid_invariant
      (fun c => if c = lc "AA1A" then some (lc "EM48", lc "T0") else none)
      (lc "AA1A") [] (lc "T1")).2.1 (lc "EM48") (lc "T0") (by simp) (by decide),
   (claim_C2_add_grid_invariant (fun _ => none) (lc "BB2B") [] (lc "T1")).2.2 rfl⟩

/-- C3: processing a received character stream chunk-by-chunk through the
internal buffer dispatches exactly the same sequence of parsed messages as
processing the whole stream as one chunk — so a newline-terminated line
truncated across successive reads is dispatched exactly once, when its
newline arrives; blank lines are skipped and lines the (abstract) JSON
parser rejects are silently discarded. -/
theorem claim_C3_chunked_equals_whole :
    ∀ (M : Type) (parse : List Char → Option M) (chunks : List (List Char)),
    (∀ c ∈ chunks, c ≠ []) →
    runChunks parse [] chunks = runChunks parse [] [chunks.flatten] := by
  intro M parse chunks hne
  match chunks with
  | [] => rfl
  | c :: cs =>
    have hflat : (c :: cs).flatten ≠ [] := by
      have hc : c ≠ [] := hne c (by simp)
      simp only [List.flatten_cons]
      intro hcontra
      exact hc (List.append_eq_nil.mp hcontra).1
    rw [runChunks_flatten parse (c :: cs) [] (by simp) hne]
    simp only [runChunks, if_neg hflat, List.nil_append, List.append_nil]

/-- Witness for **C3**: the line `abcd` split as `ab` + `cd\nef` is
dispatched exactly once, as by whole-stream processing. -/
theorem claim_C3_witness :
    ((∀ c ∈ [lc "ab", lc "cd\nef"], c ≠ []) ∧
     runChunks (fun l => some l) [] [lc "ab", lc "cd\nef"] =
       runChunks (fun l => some l) [] [([lc "ab", lc "cd\nef"] : List (List Char)).flatten]) ∧
    runChunks (fun l => some l) [] [lc "ab", lc "cd\nef"] = [lc "abcd"] :=
  ⟨⟨by decide,
    claim_C3_chunked_equals_whole (List Char) (fun l => some l)
      [lc "ab", lc "cd\nef"] (by decide)⟩, by decide⟩

/-- C4 (amended): for every input of length at least four whose third and
fourth characters are digits, `grid_to_latlon` returns the centre formula
applied to the character codes of the upper-cased first two characters — the
field characters are **not** validated against `A`–`R` — and it returns
`none` exactly when the input is shorter than four characters or position 3
or 4 is not a digit. -/
theorem claim_C4_grid_to_latlon :
    ∀ g : List Char,
    (∀ c0 c1 c2 c3 rest, g = c0 :: c1 :: c2 :: c3 :: rest →
      isDigitC c2 = true → isDigitC c3 = true →
      grid_to_latlon g =
        some (((((pyUpper c1).toNat : Int) - 65 : Int) * 10 - 90 +
                (digitVal c3 : Int) + (1 : ℚ) / 2,
              (((((pyUpper c0).toNat : Int) - 65 : Int) * 20 - 180 +
                (digitVal c2 : Int) * 2 + 1 : Int) : ℚ)))) ∧
    (grid_to_latlon g = none ↔
      g.length < 4 ∨ isDigitC (g.getD 2 'x') = false ∨
        isDigitC (g.getD 3 'x') = false) := by
  intro g
  constructor
  · intro c0 c1 c2 c3 rest hg h2 h3
    subst hg
    simp [grid_to_latlon, charInt?, h2, h3]
  · match g with
    | [] => exact ⟨fun _ => Or.inl (by norm_num), fun _ => rfl⟩
    | [c0] => exact ⟨fun _ => Or.inl (by norm_num), fun _ => rfl⟩
    | [c0, c1] => exact ⟨fun _ => Or.inl (by norm_num), fun _ => rfl⟩
    | [c0, c1, c2] => exact ⟨fun _ => Or.inl (by norm_num), fun _ => rfl⟩
    | c0 :: c1 :: c2 :: c3 :: rest =>
      have hget2 : (c0 :: c1 :: c2 :: c3 :: rest).getD 2 'x' = c2 := rfl
      have hget3 : (c0 :: c1 :: c2 :: c3 :: rest).getD 3 'x' = c3 := rfl
      by_cases h2 : isDigitC c2 = true
      · by_cases h3 : isDigitC c3 = true
        · simp only [grid_to_latlon, charInt?, h2, h3, if_true, hget2, hget3]
          simp
        · have h3' : isDigitC c3 = false := by
            revert h3; cases isDigitC c3 <;> simp
          simp only [grid_to_latlon, charInt?, h2, h3', if_true, hget2, hget3]
          simp [h3']
      · have h2' : isDigitC c2 = false := by
          revert h2; cases isDigitC c2 <;> simp
        simp only [grid_to_latlon, charInt?, h2', hget2, hget3]
        simp [h2']

/-- Witness for C4: the formula at the valid grid `EM48` and the `none`
characterization at the short input `EM4`. -/
theorem claim_C4_witness :
    grid_to_latlon (lc "EM48") =
      some (((((pyUpper 'M').toNat : Int) - 65 : Int) * 10 - 90 +
              (digitVal '8' : Int) + (1 : ℚ) / 2,
            (((((pyUpper 'E').toNat : Int) - 65 : Int) * 20 - 180 +
              (digitVal '4' : Int) * 2 + 1 : Int) : ℚ))) ∧
    (grid_to_latlon (lc "EM4") = none ↔
      (lc "EM4").length < 4 ∨ isDigitC ((lc "EM4").getD 2 'x') = false ∨
        isDigitC ((lc "EM4").getD 3 'x') = false) :=
  ⟨(claim_C4_grid_to_latlon (lc "EM48")).1 'E' 'M' '4' '8' [] rfl
      (by decide) (by decide),
   (claim_C4_grid_to_latlon (lc "EM4")).2⟩

/-- C4 counterexample: `"1234"` has non-letter field characters, yet
`grid_to_latlon` returns a value rather than `None` — the claim's
"invalid on a non-letter field character" is false of the code. -/
theorem claim_C4_counterexample : grid_to_latlon (lc "1234") ≠ none := by decide

/-- C5: for every valid 4-character grid, `get_adjacent_grids` returns
at most eight pairwise-distinct locators, none equal to the input, each
produced by one `(-1/0/+1, -1/0/+1)` square step with digit wraparound and
field-letter bounds clipping (candidates whose field letter leaves `A`–`R`
are omitted); inputs shorter than four characters or with non-digit square
characters yield the empty list. -/
theorem claim_C5_adjacent_grids :
    ∀ g : List Char,
    (validGrid4 g = true →
      (get_adjacent_grids g).Nodup ∧
      (get_adjacent_grids g).length ≤ 8 ∧
      g ∉ get_adjacent_grids g ∧
      (∀ v ∈ get_adjacent_grids g, ∃ d ∈ offsets,
        adjCell ((pyUpper (g.getD 0 'x')).toNat : Int)
          ((pyUpper (g.getD 1 'x')).toNat : Int)
          (digitVal (g.getD 2 'x') : Int) (digitVal (g.getD 3 'x') : Int)
          d.1 d.2 = some v)) ∧
    (g.length < 4 → get_adjacent_grids g = []) ∧
    (∀ c0 c1 c2 c3 rest, g = c0 :: c1 :: c2 :: c3 :: rest →
      (isDigitC c2 = false ∨ isDigitC c3 = false) →
      get_adjacent_grids g = []) := by
  intro g
  refine ⟨?_, ?_, ?_⟩
  · intro hv
    obtain ⟨c0, c1, c2, c3, hg⟩ : ∃ c0 c1 c2 c3, g = [c0, c1, c2, c3] := by
      match g, hv with
      | [c0, c1, c2, c3], _ => exact ⟨c0, c1, c2, c3, rfl⟩
      | [], hv | [_], hv | [_, _], hv | [_, _, _], hv =>
        exact absurd hv Bool.false_ne_true
      | _ :: _ :: _ :: _ :: _ :: _, hv =>
        exact absurd hv Bool.false_ne_true
    subst hg
    have hvp : ((65 ≤ (pyUpper c0).toNat ∧ (pyUpper c0).toNat ≤ 82) ∧
        (65 ≤ (pyUpper c1).toNat ∧ (pyUpper c1).toNat ≤ 82)) ∧
        isDigitC c2 = true ∧ isDigitC c3 = true := by
      simpa [validGrid4, Bool.and_eq_true, decide_eq_true_eq, and_assoc]
        using hv
    obtain ⟨⟨hf0, hf1⟩, h2, h3⟩ := hvp
    have hc2 : 48 ≤ c2.toNat ∧ c2.toNat ≤ 57 := by
      simpa [isDigitC, Bool.and_eq_true, decide_eq_true_eq] using h2
    have hc3 : 48 ≤ c3.toNat ∧ c3.toNat ≤ 57 := by
      simpa [isDigitC, Bool.and_eq_true, decide_eq_true_eq] using h3
    have hsLon : (0 : Int) ≤ (digitVal c2 : Int) ∧ (digitVal c2 : Int) ≤ 9 := by
      unfold digitVal; omega
    have hsLat : (0 : Int) ≤ (digitVal c3 : Int) ∧ (digitVal c3 : Int) ≤ 9 := by
      unfold digitVal; omega
    have hunfold : get_adjacent_grids [c0, c1, c2, c3] =
        offsets.filterMap (fun d =>
          adjCell ((pyUpper c0).toNat : Int) ((pyUpper c1).toNat : Int)
            (digitVal c2 : Int) (digitVal c3 : Int) d.1 d.2) := by
      simp [get_adjacent_grids, charInt?, h2, h3]
    have hinj : ∀ d ∈ offsets, ∀ d' ∈ offsets, ∀ v : List Char,
        adjCell ((pyUpper c0).toNat : Int) ((pyUpper c1).toNat : Int)
          (digitVal c2 : Int) (digitVal c3 : Int) d.1 d.2 = some v →
        adjCell ((pyUpper c0).toNat : Int) ((pyUpper c1).toNat : Int)
          (digitVal c2 : Int) (digitVal c3 : Int) d'.1 d'.2 = some v →
        d = d' := by
      intro d hd d' hd' v ha ha'
      obtain ⟨⟨b1, b2, b3, b4⟩, hrv⟩ := adjCell_some ha
      obtain ⟨⟨b1', b2', b3', b4'⟩, hrv'⟩ := adjCell_some ha'
      rw [hrv] at hrv'
      obtain ⟨e1, e2, e3, e4⟩ := render_inj ⟨b1, b2⟩ ⟨b3, b4⟩ ⟨b1', b2'⟩
        ⟨b3', b4'⟩ (axisStep_snd_range hsLon) (axisStep_snd_range hsLat)
        (axisStep_snd_range hsLon) (axisStep_snd_range hsLat) hrv'
      have hdb := offsets_bounds d hd
      have hdb' := offsets_bounds d' hd'
      have hax1 : axisStep ((pyUpper c0).toNat : Int) (digitVal c2 : Int) d.1 =
          axisStep ((pyUpper c0).toNat : Int) (digitVal c2 : Int) d'.1 :=
        Prod.ext_iff.mpr ⟨e1, e3⟩
      have hax2 : axisStep ((pyUpper c1).toNat : Int) (digitVal c3 : Int) d.2 =
          axisStep ((pyUpper c1).toNat : Int) (digitVal c3 : Int) d'.2 :=
        Prod.ext_iff.mpr ⟨e2, e4⟩
      exact Prod.ext_iff.mpr
        ⟨axisStep_inj hsLon hdb.1 hdb'.1 hax1,
         axisStep_inj hsLat hdb.2.1 hdb'.2.1 hax2⟩
    refine ⟨?_, ?_, ?_, ?_⟩
    · rw [hunfold]
      exact nodup_filterMap_on (by decide) hinj
    · rw [hunfold]
      exact List.length_filterMap_le _ _
    · rw [hunfold]
      intro hmem
      rcases List.mem_filterMap.mp hmem with ⟨d, hd, hAdj⟩
      obtain ⟨⟨b1, b2, b3, b4⟩, hrv⟩ := adjCell_some hAdj
      injection hrv with e0 hrv
      injection hrv with e1 hrv
      injection hrv with e2 hrv
      injection hrv with e3 _
      -- recover the character codes
      have hq2 := axisStep_snd_range (f := ((pyUpper c0).toNat : Int))
        (d := d.1) hsLon
      have hq3 := axisStep_snd_range (f := ((pyUpper c1).toNat : Int))
        (d := d.2) hsLat
      have k0 := congrArg Char.toNat e0
      rw [toNat_ofNat_lt _ (by omega)] at k0
      have k1 := congrArg Char.toNat e1
      rw [toNat_ofNat_lt _ (by omega)] at k1
      have k2 := congrArg Char.toNat e2
      rw [toNat_ofNat_lt _ (by omega)] at k2
      have k3 := congrArg Char.toNat e3
      rw [toNat_ofNat_lt _ (by omega)] at k3
      -- the input's field characters are already upper case
      have hup0 : (pyUpper c0).toNat = c0.toNat := by
        unfold pyUpper
        rw [if_neg (show 97 <= c0.toNat /\ c0.toNat <= 122 -> False by omega)]
      have hup1 : (pyUpper c1).toNat = c1.toNat := by
        unfold pyUpper
        rw [if_neg (show 97 <= c1.toNat /\ c1.toNat <= 122 -> False by omega)]
      have hdv2 : digitVal c2 = c2.toNat - 48 := rfl
      have hdv3 : digitVal c3 = c3.toNat - 48 := rfl
      have hdb := offsets_bounds d hd
      have hcenter1 : axisStep ((pyUpper c0).toNat : Int) (digitVal c2 : Int)
          d.1 = (((pyUpper c0).toNat : Int), (digitVal c2 : Int)) := by
        apply Prod.ext_iff.mpr
        constructor
        · omega
        · omega
      have hcenter2 : axisStep ((pyUpper c1).toNat : Int) (digitVal c3 : Int)
          d.2 = (((pyUpper c1).toNat : Int), (digitVal c3 : Int)) := by
        apply Prod.ext_iff.mpr
        constructor
        · omega
        · omega
      rcases Decidable.em (d.1 = 0) with hd1 | hd1
      · have hd2 : d.2 ≠ 0 := fun h0 => hdb.2.2 ⟨hd1, h0⟩
        exact axisStep_ne_center hsLat hdb.2.1 hd2 hcenter2
      · exact axisStep_ne_center hsLon hdb.1 hd1 hcenter1
    · intro v hvmem
      rw [hunfold] at hvmem
      rcases List.mem_filterMap.mp hvmem with ⟨d, hd, hAdj⟩
      exact ⟨d, hd, hAdj⟩
  · intro hlen
    match g, hlen with
    | [], _ => rfl
    | [_], _ => rfl
    | [_, _], _ => rfl
    | [_, _, _], _ => rfl
    | _ :: _ :: _ :: _ :: _, hlen =>
      exfalso
      simp at hlen
      omega
  · intro c0 c1 c2 c3 rest hg hbad
    subst hg
    rcases hbad with hb | hb
    · cases hc3 : isDigitC c3 <;>
        simp [get_adjacent_grids, charInt?, hb, hc3]
    · cases hc2 : isDigitC c2 <;>
        simp [get_adjacent_grids, charInt?, hb, hc2]

/-- Witness for **C5** at the valid grid `EM48`. -/
theorem claim_C5_witness :
    validGrid4 (lc "EM48") = true ∧
    (get_adjacent_grids (lc "EM48")).Nodup ∧
    (get_adjacent_grids (lc "EM48")).length ≤ 8 ∧
    lc "EM48" ∉ get_adjacent_grids (lc "EM48") :=
  ⟨by decide,
   ((claim_C5_adjacent_grids (lc "EM48")).1 (by decide)).1,
   ((claim_C5_adjacent_grids (lc "EM48")).1 (by decide)).2.1,
   ((claim_C5_adjacent_grids (lc "EM48")).1 (by decide)).2.2.1⟩

/-- C6 (code bug, evaluated): two adjacent-grid entries, `AA1A` at `EM47`
with average `their_snr_of_me` exactly `0` and `BB2B` at `EM49` with average
`-2`; on the query `EM48` the ranking key `x["avg_their_snr"] or -999`
treats the `0` average as falsy, so the `-2` entry is ranked *first*,
contradicting the claimed "larger numeric average (including zero) ranks
first". -/
theorem claim_C6_zero_average_misranked :
    (lookup_by_grid
        [⟨lc "AA1A", lc "EM47"⟩, ⟨lc "BB2B", lc "EM49"⟩]
        [⟨lc "AA1A", lc "0", lc "2024-01-01 00:00:00"⟩,
         ⟨lc "BB2B", lc "-2", lc "2024-01-02 00:00:00"⟩]
        (lc "EM47")).map (fun r => r.avg_their_snr) = [some 0] ∧
    (lookup_by_grid
        [⟨lc "AA1A", lc "EM47"⟩, ⟨lc "BB2B", lc "EM49"⟩]
        [⟨lc "AA1A", lc "0", lc "2024-01-01 00:00:00"⟩,
         ⟨lc "BB2B", lc "-2", lc "2024-01-02 00:00:00"⟩]
        (lc "EM49")).map (fun r => r.avg_their_snr) = [some (-2)] ∧
    (do_lookup_rows
        [⟨lc "AA1A", lc "EM47"⟩, ⟨lc "BB2B", lc "EM49"⟩]
        [⟨lc "AA1A", lc "0", lc "2024-01-01 00:00:00"⟩,
         ⟨lc "BB2B", lc "-2", lc "2024-01-02 00:00:00"⟩]
        (lc "EM48")).map (fun r => r.callsign) = [lc "BB2B", lc "AA1A"] := by
  refine ⟨?_, ?_, ?_⟩
  all_goals
    simp +decide [do_lookup_rows, lookup_by_grid, lookupRowFor, get_adjacent_grids,
      adjCell, axisStep, offsets, charInt?, sortAdjacentPy, sortKeyPy, sqlAvgGe,
      List.insertionSort, List.orderedInsert, upperL, pyUpper, lc, List.filter,
      sqliteCastInt, maxInt, maxStr, isWS, isDigitC, digitVal, stripWS,
      Char.toNat]

/-- C7 (amended): `_parse_snr` removes *every* `'+'` (not only a leading
sign) before parsing: absent/empty input gives the empty result, a
well-formed `^[+-]?\d+$` string gives its integer's decimal string, and the
result never changes if the plusses are deleted from the input first (so
e.g. `"1+2"` parses as `12` instead of being rejected). -/
theorem claim_C7_parse_snr_amended :
    ∀ s : List Char,
    (_parse_snr none = [] ∧ _parse_snr (some (.jstr [])) = []) ∧
    (wfSigned s = true → _parse_snr (some (.jstr s)) = pyStrOfInt (sValue s)) ∧
    (pyInt? (s.filter (fun c => c ≠ '+')) = none →
      _parse_snr (some (.jstr s)) = []) ∧
    _parse_snr (some (.jstr s)) =
      _parse_snr (some (.jstr (s.filter (fun c => c ≠ '+')))) := by
  intro s
  refine ⟨⟨rfl, rfl⟩, fun h => parse_wf h, ?_, ?_⟩
  · intro hnone
    by_cases hs : s = []
    · subst hs; rfl
    · rw [parse_snr_jstr hs, hnone]
  · by_cases hs : s = []
    · subst hs; rfl
    · rw [parse_snr_jstr hs]
      by_cases ht : s.filter (fun c => c ≠ '+') = []
      · rw [ht]
        rfl
      · rw [parse_snr_jstr ht]
        have hff : (s.filter (fun c => c ≠ '+')).filter (fun c => c ≠ '+') =
            s.filter (fun c => c ≠ '+') :=
          List.filter_eq_self.mpr (fun x hx => (List.mem_filter.mp hx).2)
        rw [hff]

/-- C7 counterexample: by the claim, `"1+2"` (a `'+'` not in leading
position) must parse to absent; the code returns the digits `12`. -/
theorem claim_C7_counterexample :
    _parse_snr (some (.jstr (lc "1+2"))) = lc "12" := by decide

/-- Witness for C7: the well-formed-input conjunct at `"+02"` and the
non-parseable-remainder conjunct at `"abc"`. -/
theorem claim_C7_witness :
    (wfSigned (lc "+02") = true ∧
     _parse_snr (some (.jstr (lc "+02"))) = pyStrOfInt (sValue (lc "+02"))) ∧
    (pyInt? ((lc "abc").filter (fun c => c ≠ '+')) = none ∧
     _parse_snr (some (.jstr (lc "abc"))) = []) :=
  ⟨⟨by decide, (claim_C7_parse_snr_amended (lc "+02")).2.1 (by decide)⟩,
   ⟨by decide, (claim_C7_parse_snr_amended (lc "abc")).2.2.1 (by decide)⟩⟩

/-- C8 (code bug, evaluated): a directed notification addressed to the
operator whose `UTC` field is a truthy non-number makes `utc / 1000` raise
`TypeError`; the exception escapes `_process_directed` and no contact-record
event is emitted, contrary to the degrade-to-current-time design. -/
theorem claim_C8_unparseable_utc_raises :
    ∀ (now : List Char) (fmtTime : ℚ → List Char),
    _process_directed (lc "W1ABC") now fmtTime
      [(lc "TO", .jstr (lc "W1ABC")), (lc "FROM", .jstr (lc "K9XYZ")),
       (lc "UTC", .jstr (lc "x"))] (lc "") = .error .typeError :=
  fun _ _ => rfl

/-- C10: `lookup_by_grid` resolves the spec's prefix-versus-exact
question as *exact* match: a callsign appears in the result precisely when
the store holds a grid row equal, character for character, to the
upper-cased query, and that callsign has at least one stored message — so a
longer stored locator (e.g. `EM48AB`) is never returned for query `EM48`,
and a grid differing only in letter case never matches. -/
theorem claim_C10_lookup_exact_match :
    ∀ (grids : List GridRow) (msgs : List DMsg) (q c : List Char),
    c ∈ (lookup_by_grid grids msgs q).map (fun r => r.callsign) ↔
      ((⟨c, upperL q⟩ : GridRow) ∈ grids ∧ ∃ m ∈ msgs, m.callsign = c) := by
  intro grids msgs q c
  unfold lookup_by_grid
  rw [List.mem_map]
  constructor
  · rintro ⟨r, hr, hrc⟩
    have hr' := (List.perm_insertionSort _ _).mem_iff.mp hr
    rcases List.mem_map.mp hr' with ⟨cg, hcg, hmk⟩
    rcases List.mem_filter.mp hcg with ⟨hcgG, hpred⟩
    rw [Bool.and_eq_true, decide_eq_true_eq, List.any_eq_true] at hpred
    obtain ⟨hgrid, m, hm, hmc⟩ := hpred
    rw [decide_eq_true_eq] at hmc
    have hcs : cg.callsign = c := by
      rw [← hrc, ← hmk]
      rfl
    constructor
    · have hcg_eq : cg = ⟨c, upperL q⟩ := by
        cases cg
        simp_all
      rwa [hcg_eq] at hcgG
    · exact ⟨m, hm, by rw [hmc, hcs]⟩
  · rintro ⟨hg, m, hm, hmc⟩
    refine ⟨lookupRowFor msgs ⟨c, upperL q⟩, ?_, rfl⟩
    apply (List.perm_insertionSort _ _).mem_iff.mpr
    apply List.mem_map_of_mem
    apply List.mem_filter.mpr
    refine ⟨hg, ?_⟩
    rw [Bool.and_eq_true, decide_eq_true_eq, List.any_eq_true]
    exact ⟨rfl, m, hm, by simpa using hmc⟩

/-- C9: for every well-formed `^[+-]?\d+$` display value,
`format_snr ∘ _parse_snr` yields the spec's normalized form (explicit sign,
zero-padded to at least two digits), the normalization is idempotent after
the first pass, and `format_snr` of an absent value is empty. -/
theorem claim_C9_roundtrip :
    ∀ s : List Char, wfSigned s = true →
    (format_snr (some (.jstr (_parse_snr (some (.jstr s))))) =
      specNormalizedForm s) ∧
    (format_snr (some (.jstr (_parse_snr (some (.jstr (format_snr
        (some (.jstr (_parse_snr (some (.jstr s))))))))))) =
      format_snr (some (.jstr (_parse_snr (some (.jstr s)))))) ∧
    format_snr none = [] ∧ format_snr (some (.jstr [])) = [] := by
  intro s h
  have h1 : _parse_snr (some (.jstr s)) = pyStrOfInt (sValue s) := parse_wf h
  refine ⟨?_, ?_, rfl, rfl⟩
  · rw [h1, format_snr_pyStrOfInt]
    rfl
  · rw [h1, format_snr_pyStrOfInt, parse_wf (wfSigned_fmtPlus3 _),
      sValue_fmtPlus3, format_snr_pyStrOfInt]

/-- Witness for **C9** at `"-10"`. -/
theorem claim_C9_witness :
    wfSigned (lc "-10") = true ∧
    format_snr (some (.jstr (_parse_snr (some (.jstr (lc "-10")))))) =
      specNormalizedForm (lc "-10") :=
  ⟨by decide, (claim_C9_roundtrip (lc "-10") (by decide)).1⟩

end JS8
